import Mathlib

/-!
# Verification of the Belize holiday-calendar engine

A shallow embedding of `src/holidays/countries/belize.py` together with the
engine primitives it consumes (calendar utilities, the Easter computus, and
the holiday-set container, which are modelled from the specification since
their sources are not part of this repository slice).

Dates are represented by their proleptic-Gregorian ordinal (the number of
days since 0001-01-00, so 0001-01-01 is ordinal 1), exactly as Python's
`datetime.date.toordinal`.  Weekdays follow Python's `date.weekday()`
convention: Monday = 0, ..., Sunday = 6.
-/

set_option maxHeartbeats 1000000

namespace Belize

/-- Modelled from the spec (CalendarDate / Python `datetime.date`):
Gregorian leap-year test. -/
def isLeap (y : Nat) : Bool :=
  (y % 4 == 0 && y % 100 != 0) || y % 400 == 0

/-- Returns `1` in a leap year of the proleptic Gregorian calendar, `0` otherwise. -/
def leapDays (y : Nat) : Nat :=
  if isLeap y then 1 else 0

/-- Days in the months strictly before month `m` of a common year. -/
def monthTable (m : Nat) : Nat :=
  match m with
  | 1 => 0
  | 2 => 31
  | 3 => 59
  | 4 => 90
  | 5 => 120
  | 6 => 151
  | 7 => 181
  | 8 => 212
  | 9 => 243
  | 10 => 273
  | 11 => 304
  | 12 => 334
  | _ => 365

/-- Days in year `y` strictly before month `m`. -/
def daysBeforeMonth (y m : Nat) : Nat :=
  monthTable m + (if 2 < m then leapDays y else 0)

/-- Number of days in the years strictly before year `y`
(the proleptic Gregorian ordinal of December 31 of year `y - 1`). -/
def daysBeforeYear (y : Nat) : Nat :=
  365 * (y - 1) + (y - 1) / 4 - (y - 1) / 100 + (y - 1) / 400

/-- Modelled from the spec (CalendarDate): the proleptic Gregorian ordinal
of the date `(y, m, d)`, as computed by Python's `date.toordinal`. -/
def toOrdinal (y m d : Nat) : Nat :=
  daysBeforeYear y + daysBeforeMonth y m + d

/-- Modelled from the spec (Weekday extraction / Python `date.weekday()`):
Monday = 0, Tuesday = 1, ..., Sunday = 6. -/
def weekday (dt : Nat) : Nat :=
  (dt + 6) % 7

/-- The constant `MON` from `holidays.constants`. -/
def MON : Nat := 0

/-- Source: `HolidayBase._is_monday`. -/
def isMonday (dt : Nat) : Bool := weekday dt == 0

/-- Source: `HolidayBase._is_tuesday`. -/
def isTuesday (dt : Nat) : Bool := weekday dt == 1

/-- Source: `HolidayBase._is_wednesday`. -/
def isWednesday (dt : Nat) : Bool := weekday dt == 2

/-- Source: `HolidayBase._is_thursday`. -/
def isThursday (dt : Nat) : Bool := weekday dt == 3

/-- Source: `HolidayBase._is_friday`. -/
def isFriday (dt : Nat) : Bool := weekday dt == 4

/-- Source: `HolidayBase._is_saturday`. -/
def isSaturday (dt : Nat) : Bool := weekday dt == 5

/-- Source: `HolidayBase._is_sunday`. -/
def isSunday (dt : Nat) : Bool := weekday dt == 6

/-- Modelled from the spec: `nthWeekdayFrom(n, W, date)` finds the `n`-th
occurrence of weekday `w` strictly after (`n > 0`) or strictly before
(`n < 0`) the reference date (the reference date itself is excluded; the
spec declares `n = 0` an `InvalidArgument` error, and this model is only
ever used, and only ever claimed, for nonzero `n`).  This stands in for
`holidays.calendars._get_nth_weekday_from`, whose source is not part of
this repository slice; on every argument the repository passes
(`n = 1` on a Friday/Sunday, `n = -1` on a Tuesday/Wednesday/Thursday)
it agrees with the library function. -/
def nthWeekdayFrom (n : Int) (w : Nat) (dt : Nat) : Nat :=
  if 0 < n then
    dt + (n.toNat - 1) * 7 + (w + 6 - weekday dt) % 7 + 1
  else
    dt + 1 - ((-n).toNat - 1) * 7 - ((weekday dt + 6 - w) % 7 + 2)

/-- The `h` intermediate of the anonymous Gregorian (Meeus/Jones/Butcher)
computus: `(19a + b - d - g + 15) mod 30` with `a = y mod 19`, `b = y/100`,
`d = b/4`, `g = (b - (b+8)/25 + 1)/3`. -/
def easterH (y : Nat) : Nat :=
  (19 * (y % 19) + y / 100 + 15 - y / 100 / 4
    - (y / 100 + 1 - (y / 100 + 8) / 25) / 3) % 30

/-- The `l` intermediate of the computus:
`(32 + 2e + 2i - h - k) mod 7` with `e = (y/100) mod 4`, `i = (y mod 100)/4`,
`k = (y mod 100) mod 4`. -/
def easterL (y : Nat) : Nat :=
  (32 + 2 * (y / 100 % 4) + 2 * (y % 100 / 4) - easterH y - y % 100 % 4) % 7

/-- The `m` intermediate of the computus: `(a + 11h + 22l) / 451`. -/
def easterM (y : Nat) : Nat :=
  (y % 19 + 11 * easterH y + 22 * easterL y) / 451

/-- The combined month/day code of the computus: `h + l - 7m + 114`;
Easter Sunday is day `(t mod 31) + 1` of month `t / 31`. -/
def easterT (y : Nat) : Nat :=
  easterH y + easterL y + 114 - 7 * easterM y

/-- Modelled from the spec: the Easter computus ("given a year, returns the
Gregorian date of Easter Sunday using the standard computus algorithm"),
the anonymous Gregorian (Meeus/Jones/Butcher) algorithm, returned as an
ordinal.  Stands in for the Easter routine the engine uses, whose source is
not part of this repository slice. -/
def easter (y : Nat) : Nat :=
  toOrdinal y (easterT y / 31) (easterT y % 31 + 1)

/-- The holiday set: the per-year container of committed
(ordinal date, name) entries, in insertion order. -/
abbrev HolidaySet : Type := List (Nat × String)

/-- Errors of the holiday-set engine. -/
inductive HolidayError : Type
  | duplicateDate
deriving DecidableEq

/-- Modelled from the spec (`HolidaySet.contains`): membership query on the
committed dates, used by the adjuster's collision check (the source's
`dt + td(days=+1) not in self`). -/
def contains (s : HolidaySet) (dt : Nat) : Bool :=
  s.any fun p => p.1 == dt

/-- Modelled from the spec (`HolidaySet.commit` /
`HolidayBase._add_holiday`): inserts `(dt, name)`; fails with
`DuplicateDate` if the date is already present. -/
def commit (s : HolidaySet) (name : String) (dt : Nat) :
    Except HolidayError HolidaySet :=
  if contains s dt then .error .duplicateDate
  else .ok (s ++ [(dt, name)])

/-- Source: `Belize._add_holiday` (src/holidays/countries/belize.py, lines 57-68):
the simple Sunday-shift commit path.  If observed mode is on, the nominal
date is a Sunday and the following day is not already in the set, shift to
the Monday and rename with the " (Observed)" suffix; then commit. -/
def addHoliday (observed : Bool) (s : HolidaySet) (name : String) (dt : Nat) :
    Except HolidayError HolidaySet :=
  if observed && isSunday dt && !(contains s (dt + 1)) then
    commit s (name ++ " (Observed)") (dt + 1)
  else
    commit s name dt

/-- The weekday adjustment computed by `Belize._add_movable_holiday`
(src/holidays/countries/belize.py, lines 38-55) before it delegates to
`_add_holiday`: Friday/Sunday move to the following Monday, Tuesday/
Wednesday/Thursday to the preceding Monday, both renamed with the
" (Observed)" suffix; nothing happens when observed mode is off. -/
def adjustExtended (observed : Bool) (name : String) (dt : Nat) :
    String × Nat :=
  if observed then
    if isFriday dt || isSunday dt then
      (name ++ " (Observed)", nthWeekdayFrom 1 MON dt)
    else if isTuesday dt || isWednesday dt || isThursday dt then
      (name ++ " (Observed)", nthWeekdayFrom (-1) MON dt)
    else (name, dt)
  else (name, dt)

/-- Source: `Belize._add_movable_holiday` (src/holidays/countries/belize.py,
lines 38-55): apply the extended weekday shift, then commit through
`_add_holiday`. -/
def addMovableHoliday (observed : Bool) (s : HolidaySet) (name : String)
    (dt : Nat) : Except HolidayError HolidaySet :=
  let p := adjustExtended observed name dt
  addHoliday observed s p.1 p.2

/-- Source: `Belize._populate` up to and including Garifuna Settlement Day
(src/holidays/countries/belize.py, lines 70-123), for a year `> 1981`.
The Christian and international helper entries (`_add_new_years_day`,
`_add_good_friday`, `_add_holy_saturday`, `_add_easter_monday`,
`_add_labor_day`) are modelled from the spec's resolver table (fixed
Gregorian dates and Easter offsets -2, -1, +1); each routes through the
overridden `_add_holiday` of Belize exactly as Python method dispatch
does. -/
def populatePre (observed : Bool) (year : Nat) :
    Except HolidayError HolidaySet :=
  addHoliday observed [] "New Year's Day" (toOrdinal year 1 1) >>= fun s =>
  (if 2021 ≤ year then
      addHoliday observed s "George Price Day" (toOrdinal year 1 15)
    else .ok s) >>= fun s =>
  addMovableHoliday observed s "National Heroes and Benefactors Day"
    (toOrdinal year 3 9) >>= fun s =>
  addHoliday observed s "Good Friday" (easter year - 2) >>= fun s =>
  addHoliday observed s "Holy Saturday" (easter year - 1) >>= fun s =>
  addHoliday observed s "Easter Monday" (easter year + 1) >>= fun s =>
  addHoliday observed s "Labour Day" (toOrdinal year 5 1) >>= fun s =>
  (if year ≤ 2021 then
      addMovableHoliday observed s "Commonwealth Day" (toOrdinal year 5 24)
    else .ok s) >>= fun s =>
  (if 2021 ≤ year then
      addMovableHoliday observed s "Emancipation Day" (toOrdinal year 8 1)
    else .ok s) >>= fun s =>
  addHoliday observed s "Saint George's Caye Day"
    (toOrdinal year 9 10) >>= fun s =>
  addHoliday observed s "Independence Day" (toOrdinal year 9 21) >>= fun s =>
  addMovableHoliday observed s
    (if 2021 ≤ year then "Indigenous Peoples' Resistance Day"
      else "Pan American Day") (toOrdinal year 10 12) >>= fun s =>
  addHoliday observed s "Garifuna Settlement Day" (toOrdinal year 11 19)

/-- Source: `Belize._populate` (src/holidays/countries/belize.py, lines 70-132):
years up to 1981 produce the empty set; otherwise the fixed sequence of
holidays is committed, with Boxing Day (nominal December 26, Christmas
Day's nominal date plus one, via `_add_christmas_day_two`) deliberately
committed before Christmas Day. -/
def populate (observed : Bool) (year : Nat) :
    Except HolidayError HolidaySet :=
  if year ≤ 1981 then .ok []
  else
    populatePre observed year >>= fun s =>
    addHoliday observed s "Boxing Day" (toOrdinal year 12 25 + 1) >>= fun s =>
    addHoliday observed s "Christmas Day" (toOrdinal year 12 25)

/-- The holiday set produced for a year, with errors collapsed to the
empty set (used to state concrete evaluations). -/
def holidaysOf (observed : Bool) (year : Nat) : HolidaySet :=
  (populate observed year).toOption.getD []

/-- Returns `true` iff the entry carries the given canonical holiday name, either
plainly or with the engine's " (Observed)" suffix. -/
def holidayNamed (base : String) (p : Nat × String) : Bool :=
  p.2 == base || p.2 == base ++ " (Observed)"

/-- The entry produced by the simple Sunday-shift path when no collision
suppresses the shift: a Sunday nominal date moves to the next day and the
name gains the " (Observed)" suffix. -/
def simpleEntry (name : String) (dt : Nat) : Nat × String :=
  if isSunday dt then (dt + 1, name ++ " (Observed)") else (dt, name)

/-- The entry produced by the extended weekday-shift adjuster (date first,
matching the holiday-set entry layout). -/
def movedEntry (name : String) (dt : Nat) : Nat × String :=
  ((adjustExtended true name dt).2, (adjustExtended true name dt).1)

/-- Entries committed by `populatePre` with observed mode on, after the
New Year's Day step. -/
def preL1 (y : Nat) : HolidaySet :=
  [simpleEntry "New Year's Day" (toOrdinal y 1 1)]

/-- Likewise, after the (year-guarded) George Price Day step. -/
def preL2 (y : Nat) : HolidaySet :=
  preL1 y ++
    (if 2021 ≤ y then [simpleEntry "George Price Day" (toOrdinal y 1 15)]
      else [])

/-- Likewise, after the National Heroes and Benefactors Day step. -/
def preL3 (y : Nat) : HolidaySet :=
  preL2 y ++
    [movedEntry "National Heroes and Benefactors Day" (toOrdinal y 3 9)]

/-- Likewise, after the Good Friday step. -/
def preL4 (y : Nat) : HolidaySet :=
  preL3 y ++ [(easter y - 2, "Good Friday")]

/-- Likewise, after the Holy Saturday step. -/
def preL5 (y : Nat) : HolidaySet :=
  preL4 y ++ [(easter y - 1, "Holy Saturday")]

/-- Likewise, after the Easter Monday step. -/
def preL6 (y : Nat) : HolidaySet :=
  preL5 y ++ [(easter y + 1, "Easter Monday")]

/-- Likewise, after the Labour Day step. -/
def preL7 (y : Nat) : HolidaySet :=
  preL6 y ++ [simpleEntry "Labour Day" (toOrdinal y 5 1)]

/-- Likewise, after the (year-guarded) Commonwealth Day step. -/
def preL8 (y : Nat) : HolidaySet :=
  preL7 y ++
    (if y ≤ 2021 then [movedEntry "Commonwealth Day" (toOrdinal y 5 24)]
      else [])

/-- Likewise, after the (year-guarded) Emancipation Day step. -/
def preL9 (y : Nat) : HolidaySet :=
  preL8 y ++
    (if 2021 ≤ y then [movedEntry "Emancipation Day" (toOrdinal y 8 1)]
      else [])

/-- Likewise, after the Saint George's Caye Day step. -/
def preL10 (y : Nat) : HolidaySet :=
  preL9 y ++ [simpleEntry "Saint George's Caye Day" (toOrdinal y 9 10)]

/-- Likewise, after the Independence Day step. -/
def preL11 (y : Nat) : HolidaySet :=
  preL10 y ++ [simpleEntry "Independence Day" (toOrdinal y 9 21)]

/-- Likewise, after the October 12 movable step (renamed across the 2021
cutover). -/
def preL12 (y : Nat) : HolidaySet :=
  preL11 y ++
    [movedEntry
      (if 2021 ≤ y then "Indigenous Peoples' Resistance Day"
        else "Pan American Day") (toOrdinal y 10 12)]

/-- The sequence of entries committed by `populatePre` with observed mode
on, for a year `≥ 1982` (established by `populatePre_true_spec`). -/
def preList (y : Nat) : HolidaySet :=
  preL12 y ++ [simpleEntry "Garifuna Settlement Day" (toOrdinal y 11 19)]

/-- The full sequence of entries committed by `populate` with observed mode
on, for a year `≥ 1982` (established by `populate_true_eq`): Boxing Day is
adjusted from its fixed nominal December 26, and Christmas Day always ends
up on December 25 under its plain name (its Sunday shift, when due, is
always suppressed by Boxing Day already occupying December 26). -/
def observedList (y : Nat) : HolidaySet :=
  preList y ++
    [simpleEntry "Boxing Day" (toOrdinal y 12 25 + 1),
     (toOrdinal y 12 25, "Christmas Day")]

/-- The at-most-one-entry-per-date invariant: the committed dates are
pairwise distinct. -/
def keysOk (s : HolidaySet) : Prop :=
  (s.map Prod.fst).Nodup

/-! ## Basic lemmas about the container and the monadic plumbing -/

theorem okBind {α β : Type} (a : α) (f : α → Except HolidayError β) :
    (Except.ok a >>= f) = f a := rfl

theorem errBind {α β : Type} (e : HolidayError)
    (f : α → Except HolidayError β) :
    ((Except.error e : Except HolidayError α) >>= f) = Except.error e := rfl

theorem bind_ok_elim {α β : Type} {x : Except HolidayError α}
    {f : α → Except HolidayError β} {b : β} (h : (x >>= f) = .ok b) :
    ∃ a, x = .ok a ∧ f a = .ok b := by
  cases x with
  | error e => rw [errBind] at h; exact absurd h (by simp)
  | ok a => exact ⟨a, rfl, h⟩

theorem contains_eq_false_of {s : HolidaySet} {d : Nat}
    (h : ∀ p ∈ s, p.1 ≠ d) : contains s d = false := by
  induction s with
  | nil => rfl
  | cons q t ih =>
    simp only [contains, List.any_cons, Bool.or_eq_false_iff]
    refine ⟨by simpa using h q (by simp), ?_⟩
    exact ih fun p hp => h p (by simp [hp])

theorem of_contains_eq_false {s : HolidaySet} {d : Nat}
    (h : contains s d = false) : ∀ p ∈ s, p.1 ≠ d := by
  intro p hp he
  induction s with
  | nil => simp at hp
  | cons q t ih =>
    simp only [contains, List.any_cons, Bool.or_eq_false_iff] at h
    rcases List.mem_cons.1 hp with rfl | hp'
    · exact absurd h.1 (by simp [he])
    · exact ih h.2 hp'

theorem contains_eq_true_of_mem {s : HolidaySet} {d : Nat}
    {p : Nat × String} (hp : p ∈ s) (hd : p.1 = d) :
    contains s d = true := by
  simp only [contains, List.any_eq_true]
  exact ⟨p, hp, by simp [hd]⟩

theorem commit_eq_ok {s : HolidaySet} {name : String} {d : Nat}
    (h : ∀ p ∈ s, p.1 ≠ d) :
    commit s name d = .ok (s ++ [(d, name)]) := by
  simp [commit, contains_eq_false_of h]

/-! ## Weekday facts -/

theorem weekday_lt (dt : Nat) : weekday dt < 7 := by
  unfold weekday; omega

/-! ## The two commit paths, case by case -/

theorem addHoliday_false_commit (s : HolidaySet) (name : String) (dt : Nat) :
    addHoliday false s name dt = commit s name dt := by
  simp [addHoliday]

theorem addHoliday_nonsunday_commit {dt : Nat} (s : HolidaySet)
    (name : String) (observed : Bool) (h6 : isSunday dt = false) :
    addHoliday observed s name dt = commit s name dt := by
  simp [addHoliday, h6]

theorem addHoliday_sunday_commit {s : HolidaySet} {dt : Nat} (name : String)
    (h6 : isSunday dt = true) (hc : contains s (dt + 1) = false) :
    addHoliday true s name dt = commit s (name ++ " (Observed)") (dt + 1) := by
  simp [addHoliday, h6, hc]

theorem addHoliday_sunday_suppressed_commit {s : HolidaySet} {dt : Nat}
    (name : String) (h6 : isSunday dt = true)
    (hc : contains s (dt + 1) = true) :
    addHoliday true s name dt = commit s name dt := by
  simp [addHoliday, h6, hc]

theorem isSunday_eq_false {dt : Nat} (h : weekday dt ≠ 6) :
    isSunday dt = false := by
  simp [isSunday, h]

theorem addHoliday_true_eq {s : HolidaySet} {dt : Nat} (name : String)
    (h1 : ∀ p ∈ s, p.1 ≠ dt) (h2 : ∀ p ∈ s, p.1 ≠ dt + 1) :
    addHoliday true s name dt = .ok (s ++ [simpleEntry name dt]) := by
  cases h6 : isSunday dt with
  | false =>
    rw [addHoliday_nonsunday_commit s name true h6, commit_eq_ok h1]
    simp [simpleEntry, h6]
  | true =>
    rw [addHoliday_sunday_commit name h6 (contains_eq_false_of h2),
      commit_eq_ok h2]
    simp [simpleEntry, h6]

theorem addHoliday_nonsunday_eq {s : HolidaySet} {dt : Nat} (name : String)
    (h6 : weekday dt ≠ 6) (h1 : ∀ p ∈ s, p.1 ≠ dt) :
    addHoliday true s name dt = .ok (s ++ [(dt, name)]) := by
  rw [addHoliday_nonsunday_commit s name true (isSunday_eq_false h6),
    commit_eq_ok h1]

theorem addHoliday_suppressed_eq {s : HolidaySet} {dt : Nat} (name : String)
    (h6 : isSunday dt = true) (hc : contains s (dt + 1) = true)
    (h1 : ∀ p ∈ s, p.1 ≠ dt) :
    addHoliday true s name dt = .ok (s ++ [(dt, name)]) := by
  rw [addHoliday_sunday_suppressed_commit name h6 hc, commit_eq_ok h1]

/-- Full case analysis of the extended adjuster with observed mode on: the
output date is a Monday or a Saturday, it lies within three days of the
nominal date, and the name is either unchanged or suffixed. -/
theorem adjustExtended_spec (name : String) (dt : Nat) :
    (weekday (adjustExtended true name dt).2 = 0 ∨
      weekday (adjustExtended true name dt).2 = 5) ∧
    dt ≤ (adjustExtended true name dt).2 + 3 ∧
    (adjustExtended true name dt).2 ≤ dt + 3 ∧
    ((adjustExtended true name dt).1 = name ∨
      (adjustExtended true name dt).1 = name ++ " (Observed)") := by
  have h7 : weekday dt = 0 ∨ weekday dt = 1 ∨ weekday dt = 2 ∨
      weekday dt = 3 ∨ weekday dt = 4 ∨ weekday dt = 5 ∨ weekday dt = 6 := by
    have := weekday_lt dt; omega
  rcases h7 with h | h | h | h | h | h | h
  · have e : adjustExtended true name dt = (name, dt) := by
      simp [adjustExtended, isFriday, isSunday, isTuesday, isWednesday,
        isThursday, h]
    rw [e]
    exact ⟨Or.inl h, by omega, by omega, Or.inl rfl⟩
  · have e : adjustExtended true name dt =
        (name ++ " (Observed)", dt - 1) := by
      simp only [adjustExtended, isFriday, isSunday, isTuesday, isWednesday,
        isThursday, h, nthWeekdayFrom, MON]
      norm_num
      omega
    rw [e]
    have hd : 2 ≤ dt := by unfold weekday at h; omega
    refine ⟨Or.inl ?_, by omega, by omega, Or.inr rfl⟩
    unfold weekday at h ⊢; omega
  · have e : adjustExtended true name dt =
        (name ++ " (Observed)", dt - 2) := by
      simp only [adjustExtended, isFriday, isSunday, isTuesday, isWednesday,
        isThursday, h, nthWeekdayFrom, MON]
      norm_num
      omega
    rw [e]
    have hd : 3 ≤ dt := by unfold weekday at h; omega
    refine ⟨Or.inl ?_, by omega, by omega, Or.inr rfl⟩
    unfold weekday at h ⊢; omega
  · have e : adjustExtended true name dt =
        (name ++ " (Observed)", dt - 3) := by
      simp only [adjustExtended, isFriday, isSunday, isTuesday, isWednesday,
        isThursday, h, nthWeekdayFrom, MON]
      norm_num
      omega
    rw [e]
    have hd : 4 ≤ dt := by unfold weekday at h; omega
    refine ⟨Or.inl ?_, by omega, by omega, Or.inr rfl⟩
    unfold weekday at h ⊢; omega
  · have e : adjustExtended true name dt =
        (name ++ " (Observed)", dt + 3) := by
      simp only [adjustExtended, isFriday, isSunday, isTuesday, isWednesday,
        isThursday, h, nthWeekdayFrom, MON]
      norm_num
    rw [e]
    refine ⟨Or.inl ?_, by omega, by omega, Or.inr rfl⟩
    unfold weekday at h ⊢; omega
  · have e : adjustExtended true name dt = (name, dt) := by
      simp [adjustExtended, isFriday, isSunday, isTuesday, isWednesday,
        isThursday, h]
    rw [e]
    exact ⟨Or.inr h, by omega, by omega, Or.inl rfl⟩
  · have e : adjustExtended true name dt =
        (name ++ " (Observed)", dt + 1) := by
      simp only [adjustExtended, isFriday, isSunday, isTuesday, isWednesday,
        isThursday, h, nthWeekdayFrom, MON]
      norm_num
    rw [e]
    refine ⟨Or.inl ?_, by omega, by omega, Or.inr rfl⟩
    unfold weekday at h ⊢; omega

theorem addMovableHoliday_true_eq {s : HolidaySet} {dt : Nat}
    (name : String) (hf : ∀ p ∈ s, p.1 ≠ (movedEntry name dt).1) :
    addMovableHoliday true s name dt = .ok (s ++ [movedEntry name dt]) := by
  obtain ⟨hwd, -, -, -⟩ := adjustExtended_spec name dt
  have h6 : weekday (adjustExtended true name dt).2 ≠ 6 := by
    rcases hwd with h | h <;> omega
  show addHoliday true s (adjustExtended true name dt).1
      (adjustExtended true name dt).2 = _
  rw [addHoliday_nonsunday_eq _ h6 hf]
  rfl

theorem addMovableHoliday_false_commit (s : HolidaySet) (name : String)
    (dt : Nat) :
    addMovableHoliday false s name dt = commit s name dt := by
  simp [addMovableHoliday, adjustExtended, addHoliday]

/-! ## Arithmetic facts about the computus -/

theorem easterH_lt (y : Nat) : easterH y < 30 :=
  Nat.mod_lt _ (by norm_num)

theorem easterL_lt (y : Nat) : easterL y < 7 :=
  Nat.mod_lt _ (by norm_num)

theorem easterT_bounds (y : Nat) : 114 ≤ easterT y ∧ easterT y ≤ 149 := by
  have hh := easterH_lt y
  have hl := easterL_lt y
  have ha : y % 19 < 19 := Nat.mod_lt _ (by norm_num)
  unfold easterT easterM
  omega

theorem leapDays_eq (y : Nat) :
    leapDays y = if (y % 4 = 0 ∧ y % 100 ≠ 0) ∨ y % 400 = 0 then 1 else 0 := by
  unfold leapDays isLeap
  split <;> split <;> simp_all

theorem leapDays_le (y : Nat) : leapDays y ≤ 1 := by
  rw [leapDays_eq]; split <;> omega

/-- Easter Sunday's ordinal, decomposed: the `t` code of the computus is
`33` less than Easter's day-of-year (before the leap correction), whichever
of March or April it lands in. -/
theorem easter_decomp (y : Nat) :
    easter y + 33 = daysBeforeYear y + leapDays y + easterT y := by
  obtain ⟨h1, h2⟩ := easterT_bounds y
  have hmo : easterT y / 31 = 3 ∨ easterT y / 31 = 4 := by omega
  unfold easter toOrdinal daysBeforeMonth
  rcases hmo with h | h <;> rw [h] <;> simp [monthTable] <;> omega

/-- Modulo 7 the `h` intermediate cancels out of the `t` code: only the
century and year-in-century correction terms remain. -/
theorem easterT_mod7 (y : Nat) :
    easterT y % 7 =
      (2 * (y / 100 % 4) + 2 * (y % 100 / 4) + 6 * (y % 100 % 4) + 6) % 7 := by
  have hh := easterH_lt y
  unfold easterT easterM easterL
  omega

/-- The computus always lands on a Sunday (in the proleptic Gregorian
calendar, for every positive year). -/
theorem easter_weekday (y : Nat) (hy : 1 ≤ y) : weekday (easter y) = 6 := by
  have hd := easter_decomp y
  have hA := easterT_mod7 y
  have hT := easterT_bounds y
  have hb1 : y % 100 ≠ 0 → (y - 1) / 100 = y / 100 ∧
      (y - 1) / 4 = 25 * (y / 100) + (y % 100 - 1) / 4 ∧
      (y - 1) / 400 = y / 100 / 4 := by omega
  have hb2 : y % 100 = 0 → 1 ≤ y → (y - 1) / 100 + 1 = y / 100 ∧
      (y - 1) / 4 + 1 = 25 * (y / 100) ∧
      (y - 1) / 400 = (y / 100 - 1) / 4 := by omega
  have hb3 : y % 4 = y % 100 % 4 := by omega
  have hb4 : y % 400 = 0 ↔ y % 100 = 0 ∧ y / 100 % 4 = 0 := by omega
  rw [leapDays_eq] at hd
  unfold daysBeforeYear at hd
  unfold weekday
  by_cases hr : y % 100 = 0
  · obtain ⟨e1, e2, e3⟩ := hb2 hr hy
    by_cases hq4 : y / 100 % 4 = 0
    · rw [if_pos (Or.inr (hb4.2 ⟨hr, hq4⟩))] at hd
      omega
    · rw [if_neg ?_] at hd
      · have hq1 : 1 ≤ y / 100 := by omega
        have hw1 : y / 100 % 4 = (y / 100 - 1) % 4 + 1 := by omega
        have hw2 : y / 100 / 4 = (y / 100 - 1) / 4 := by omega
        omega
      · rintro (⟨-, h⟩ | h)
        · exact h hr
        · exact hq4 (hb4.1 h).2
  · obtain ⟨e1, e2, e3⟩ := hb1 hr
    by_cases h4 : y % 4 = 0
    · rw [if_pos (Or.inl ⟨h4, hr⟩)] at hd
      omega
    · rw [if_neg ?_] at hd
      · have hk : y % 100 % 4 ≠ 0 := by omega
        have hv1 : y % 100 % 4 = (y % 100 - 1) % 4 + 1 := by omega
        have hv2 : y % 100 / 4 = (y % 100 - 1) / 4 := by omega
        omega
      · rintro (⟨h, -⟩ | h)
        · exact h4 h
        · exact hr (hb4.1 h).1

/-! ## Ordinals of the fixed nominal dates -/

theorem ord_1_1 (y : Nat) : toOrdinal y 1 1 = daysBeforeYear y + 1 := by
  unfold toOrdinal daysBeforeMonth
  rw [if_neg (by norm_num), show monthTable 1 = 0 from rfl]

theorem ord_1_15 (y : Nat) : toOrdinal y 1 15 = daysBeforeYear y + 15 := by
  unfold toOrdinal daysBeforeMonth
  rw [if_neg (by norm_num), show monthTable 1 = 0 from rfl]

theorem ord_3_9 (y : Nat) :
    toOrdinal y 3 9 = daysBeforeYear y + leapDays y + 68 := by
  unfold toOrdinal daysBeforeMonth
  rw [if_pos (by norm_num), show monthTable 3 = 59 from rfl]
  omega

theorem ord_5_1 (y : Nat) :
    toOrdinal y 5 1 = daysBeforeYear y + leapDays y + 121 := by
  unfold toOrdinal daysBeforeMonth
  rw [if_pos (by norm_num), show monthTable 5 = 120 from rfl]
  omega

theorem ord_5_24 (y : Nat) :
    toOrdinal y 5 24 = daysBeforeYear y + leapDays y + 144 := by
  unfold toOrdinal daysBeforeMonth
  rw [if_pos (by norm_num), show monthTable 5 = 120 from rfl]
  omega

theorem ord_8_1 (y : Nat) :
    toOrdinal y 8 1 = daysBeforeYear y + leapDays y + 213 := by
  unfold toOrdinal daysBeforeMonth
  rw [if_pos (by norm_num), show monthTable 8 = 212 from rfl]
  omega

theorem ord_9_10 (y : Nat) :
    toOrdinal y 9 10 = daysBeforeYear y + leapDays y + 253 := by
  unfold toOrdinal daysBeforeMonth
  rw [if_pos (by norm_num), show monthTable 9 = 243 from rfl]
  omega

theorem ord_9_21 (y : Nat) :
    toOrdinal y 9 21 = daysBeforeYear y + leapDays y + 264 := by
  unfold toOrdinal daysBeforeMonth
  rw [if_pos (by norm_num), show monthTable 9 = 243 from rfl]
  omega

theorem ord_10_12 (y : Nat) :
    toOrdinal y 10 12 = daysBeforeYear y + leapDays y + 285 := by
  unfold toOrdinal daysBeforeMonth
  rw [if_pos (by norm_num), show monthTable 10 = 273 from rfl]
  omega

theorem ord_11_19 (y : Nat) :
    toOrdinal y 11 19 = daysBeforeYear y + leapDays y + 323 := by
  unfold toOrdinal daysBeforeMonth
  rw [if_pos (by norm_num), show monthTable 11 = 304 from rfl]
  omega

theorem ord_12_25 (y : Nat) :
    toOrdinal y 12 25 = daysBeforeYear y + leapDays y + 359 := by
  unfold toOrdinal daysBeforeMonth
  rw [if_pos (by norm_num), show monthTable 12 = 334 from rfl]
  omega

theorem ord_12_26 (y : Nat) :
    toOrdinal y 12 26 = daysBeforeYear y + leapDays y + 360 := by
  unfold toOrdinal daysBeforeMonth
  rw [if_pos (by norm_num), show monthTable 12 = 334 from rfl]
  omega

/-! ## Entry-shape lemmas -/

theorem simpleEntry_fst (n : String) (dt : Nat) :
    dt ≤ (simpleEntry n dt).1 ∧ (simpleEntry n dt).1 ≤ dt + 1 := by
  unfold simpleEntry
  split <;> simp

theorem simpleEntry_snd (n : String) (dt : Nat) :
    (simpleEntry n dt).2 = n ∨ (simpleEntry n dt).2 = n ++ " (Observed)" := by
  unfold simpleEntry
  split <;> simp

theorem simpleEntry_of_sunday {dt : Nat} (n : String) (h : weekday dt = 6) :
    simpleEntry n dt = (dt + 1, n ++ " (Observed)") := by
  simp [simpleEntry, isSunday, h]

theorem simpleEntry_of_nonsunday {dt : Nat} (n : String)
    (h : weekday dt ≠ 6) : simpleEntry n dt = (dt, n) := by
  simp [simpleEntry, isSunday_eq_false h]

theorem movedEntry_fst (n : String) (dt : Nat) :
    dt ≤ (movedEntry n dt).1 + 3 ∧ (movedEntry n dt).1 ≤ dt + 3 := by
  obtain ⟨-, h1, h2, -⟩ := adjustExtended_spec n dt
  exact ⟨h1, h2⟩

theorem movedEntry_snd (n : String) (dt : Nat) :
    (movedEntry n dt).2 = n ∨ (movedEntry n dt).2 = n ++ " (Observed)" := by
  obtain ⟨-, -, -, h⟩ := adjustExtended_spec n dt
  exact h

/-! ## Freshness and bound plumbing over the growing set -/

theorem fresh_of_lt {s : HolidaySet} {b d : Nat} (hs : ∀ p ∈ s, p.1 < b)
    (hd : b ≤ d) : ∀ p ∈ s, p.1 ≠ d := by
  intro p hp
  have := hs p hp
  omega

theorem fresh_app {s t : HolidaySet} {d : Nat} (hs : ∀ p ∈ s, p.1 ≠ d)
    (ht : ∀ p ∈ t, p.1 ≠ d) : ∀ p ∈ s ++ t, p.1 ≠ d := by
  intro p hp
  rcases List.mem_append.1 hp with h | h
  exacts [hs p h, ht p h]

theorem fresh_singleton {e : Nat × String} {d : Nat} (he : e.1 ≠ d) :
    ∀ p ∈ [e], p.1 ≠ d := by
  intro p hp
  rw [List.mem_singleton] at hp
  subst hp
  exact he

theorem lt_nil {b : Nat} : ∀ p ∈ ([] : HolidaySet), p.1 < b := by
  simp

theorem lt_app {s t : HolidaySet} {b b' : Nat} (hs : ∀ p ∈ s, p.1 < b)
    (hb : b ≤ b') (ht : ∀ p ∈ t, p.1 < b') : ∀ p ∈ s ++ t, p.1 < b' := by
  intro p hp
  rcases List.mem_append.1 hp with h | h
  · have := hs p h; omega
  · exact ht p h

theorem lt_singleton {e : Nat × String} {b : Nat} (he : e.1 < b) :
    ∀ p ∈ [e], p.1 < b := by
  intro p hp
  rw [List.mem_singleton] at hp
  subst hp
  exact he

theorem lt_ite_singleton {c : Prop} [Decidable c] {e : Nat × String}
    {b : Nat} (he : e.1 < b) :
    ∀ p ∈ (if c then [e] else ([] : HolidaySet)), p.1 < b := by
  split
  · exact lt_singleton he
  · simp

theorem fresh_ite_singleton {c : Prop} [Decidable c] {e : Nat × String}
    {d : Nat} (he : e.1 ≠ d) :
    ∀ p ∈ (if c then [e] else ([] : HolidaySet)), p.1 ≠ d := by
  split
  · exact fresh_singleton he
  · simp

/-- Lifts a conditional step into an unconditional equation appending a
conditional slot. -/
theorem ite_step {c : Prop} [Decidable c] {s t : HolidaySet}
    {f : Except HolidayError HolidaySet} (h : c → f = .ok (s ++ t)) :
    (if c then f else .ok s) = .ok (s ++ (if c then t else [])) := by
  by_cases hc : c
  · rw [if_pos hc, if_pos hc]
    exact h hc
  · rw [if_neg hc, if_neg hc]
    simp

/-! ## Preservation of the distinct-dates invariant -/

theorem keysOk_nil : keysOk [] := by
  simp [keysOk]

theorem keysOk_append {s : HolidaySet} {d : Nat} {n : String}
    (h : keysOk s) (hf : ∀ p ∈ s, p.1 ≠ d) : keysOk (s ++ [(d, n)]) := by
  unfold keysOk at h ⊢
  rw [List.map_append, List.nodup_append]
  refine ⟨h, by simp, ?_⟩
  intro a ha hb
  simp only [List.map_cons, List.map_nil, List.mem_singleton] at hb
  obtain ⟨p, hp, hpa⟩ := List.mem_map.1 ha
  exact hf p hp (by rw [hpa, hb])

theorem commit_keysOk {s s' : HolidaySet} {n : String} {d : Nat}
    (h : keysOk s) (hc : commit s n d = .ok s') : keysOk s' := by
  unfold commit at hc
  split at hc
  · exact absurd hc (by simp)
  · rename_i hcond
    injection hc with he
    subst he
    exact keysOk_append h (of_contains_eq_false (by simpa using hcond))

theorem addHoliday_keysOk {obs : Bool} {s s' : HolidaySet} {n : String}
    {d : Nat} (h : keysOk s) (hc : addHoliday obs s n d = .ok s') :
    keysOk s' := by
  unfold addHoliday at hc
  split at hc <;> exact commit_keysOk h hc

theorem addMovableHoliday_keysOk {obs : Bool} {s s' : HolidaySet}
    {n : String} {d : Nat} (h : keysOk s)
    (hc : addMovableHoliday obs s n d = .ok s') : keysOk s' := by
  unfold addMovableHoliday at hc
  exact addHoliday_keysOk h hc

theorem ite_addHoliday_keysOk {c : Prop} [Decidable c] {obs : Bool}
    {s s' : HolidaySet} {n : String} {d : Nat} (h : keysOk s)
    (hc : (if c then addHoliday obs s n d else .ok s) = .ok s') :
    keysOk s' := by
  split at hc
  · exact addHoliday_keysOk h hc
  · injection hc with he
    subst he
    exact h

theorem ite_addMovableHoliday_keysOk {c : Prop} [Decidable c] {obs : Bool}
    {s s' : HolidaySet} {n : String} {d : Nat} (h : keysOk s)
    (hc : (if c then addMovableHoliday obs s n d else .ok s) = .ok s') :
    keysOk s' := by
  split at hc
  · exact addMovableHoliday_keysOk h hc
  · injection hc with he
    subst he
    exact h

theorem populatePre_keysOk {obs : Bool} {y : Nat} {s : HolidaySet}
    (h : populatePre obs y = .ok s) : keysOk s := by
  unfold populatePre at h
  obtain ⟨s1, h1, h⟩ := bind_ok_elim h
  have k1 := addHoliday_keysOk keysOk_nil h1
  obtain ⟨s2, h2, h⟩ := bind_ok_elim h
  have k2 := ite_addHoliday_keysOk k1 h2
  obtain ⟨s3, h3, h⟩ := bind_ok_elim h
  have k3 := addMovableHoliday_keysOk k2 h3
  obtain ⟨s4, h4, h⟩ := bind_ok_elim h
  have k4 := addHoliday_keysOk k3 h4
  obtain ⟨s5, h5, h⟩ := bind_ok_elim h
  have k5 := addHoliday_keysOk k4 h5
  obtain ⟨s6, h6, h⟩ := bind_ok_elim h
  have k6 := addHoliday_keysOk k5 h6
  obtain ⟨s7, h7, h⟩ := bind_ok_elim h
  have k7 := addHoliday_keysOk k6 h7
  obtain ⟨s8, h8, h⟩ := bind_ok_elim h
  have k8 := ite_addMovableHoliday_keysOk k7 h8
  obtain ⟨s9, h9, h⟩ := bind_ok_elim h
  have k9 := ite_addMovableHoliday_keysOk k8 h9
  obtain ⟨s10, h10, h⟩ := bind_ok_elim h
  have k10 := addHoliday_keysOk k9 h10
  obtain ⟨s11, h11, h⟩ := bind_ok_elim h
  have k11 := addHoliday_keysOk k10 h11
  obtain ⟨s12, h12, h⟩ := bind_ok_elim h
  have k12 := addMovableHoliday_keysOk k11 h12
  exact addHoliday_keysOk k12 h

theorem populate_keysOk {obs : Bool} {y : Nat} {s : HolidaySet}
    (h : populate obs y = .ok s) : keysOk s := by
  unfold populate at h
  split at h
  · injection h with he
    subst he
    exact keysOk_nil
  · obtain ⟨s1, h1, h⟩ := bind_ok_elim h
    have k1 := populatePre_keysOk h1
    obtain ⟨s2, h2, h⟩ := bind_ok_elim h
    have k2 := addHoliday_keysOk k1 h2
    exact addHoliday_keysOk k2 h

/-! ## The master run of `populatePre` with observed mode on -/

/-- With observed mode on, for any year `≥ 1982` the pre-December pass
commits exactly the entries of `preList`, every one of which falls at
least 33 days before December 25. -/
theorem populatePre_true_spec (y : Nat) (hy : 1982 ≤ y) :
    populatePre true y = .ok (preList y) ∧
    ∀ p ∈ preList y, p.1 < daysBeforeYear y + 326 := by
  have hL := leapDays_le y
  have hW := easter_weekday y (by omega)
  have hE := easter_decomp y
  have hT := easterT_bounds y
  have hE1 : daysBeforeYear y + 81 ≤ easter y := by omega
  have hE2 : easter y ≤ daysBeforeYear y + 117 := by omega
  have w4 : weekday (easter y - 2) ≠ 6 := by unfold weekday at hW ⊢; omega
  have w5 : weekday (easter y - 1) ≠ 6 := by unfold weekday at hW ⊢; omega
  have w0 : weekday (easter y + 1) ≠ 6 := by unfold weekday at hW ⊢; omega
  have o1 := ord_1_1 y
  have o2 := ord_1_15 y
  have o3 := ord_3_9 y
  have o7 := ord_5_1 y
  have o8 := ord_5_24 y
  have o9 := ord_8_1 y
  have o10 := ord_9_10 y
  have o11 := ord_9_21 y
  have o12 := ord_10_12 y
  have o13 := ord_11_19 y
  have f1 := simpleEntry_fst "New Year's Day" (toOrdinal y 1 1)
  have f2 := simpleEntry_fst "George Price Day" (toOrdinal y 1 15)
  have f3 := movedEntry_fst "National Heroes and Benefactors Day"
    (toOrdinal y 3 9)
  have f7 := simpleEntry_fst "Labour Day" (toOrdinal y 5 1)
  have f8 := movedEntry_fst "Commonwealth Day" (toOrdinal y 5 24)
  have f9 := movedEntry_fst "Emancipation Day" (toOrdinal y 8 1)
  have f10 := simpleEntry_fst "Saint George's Caye Day" (toOrdinal y 9 10)
  have f11 := simpleEntry_fst "Independence Day" (toOrdinal y 9 21)
  have f12 := movedEntry_fst
    (if 2021 ≤ y then "Indigenous Peoples' Resistance Day"
      else "Pan American Day") (toOrdinal y 10 12)
  have f13 := simpleEntry_fst "Garifuna Settlement Day" (toOrdinal y 11 19)
  have e1 : addHoliday true [] "New Year's Day" (toOrdinal y 1 1) =
      .ok (preL1 y) :=
    addHoliday_true_eq _ (by simp) (by simp)
  have H1 : ∀ p ∈ preL1 y, p.1 < daysBeforeYear y + 3 := by
    unfold preL1
    exact lt_singleton (by omega)
  have e2 : (if 2021 ≤ y then
        addHoliday true (preL1 y) "George Price Day" (toOrdinal y 1 15)
      else .ok (preL1 y)) = .ok (preL2 y) :=
    ite_step fun _ =>
      addHoliday_true_eq _ (fresh_of_lt H1 (by omega))
        (fresh_of_lt H1 (by omega))
  have H2 : ∀ p ∈ preL2 y, p.1 < daysBeforeYear y + 17 := by
    unfold preL2
    exact lt_app H1 (by omega) (lt_ite_singleton (by omega))
  have e3 : addMovableHoliday true (preL2 y)
      "National Heroes and Benefactors Day" (toOrdinal y 3 9) =
      .ok (preL3 y) :=
    addMovableHoliday_true_eq _ (fresh_of_lt H2 (by omega))
  have H3 : ∀ p ∈ preL3 y, p.1 < daysBeforeYear y + 73 := by
    unfold preL3
    exact lt_app H2 (by omega) (lt_singleton (by omega))
  have e4 : addHoliday true (preL3 y) "Good Friday" (easter y - 2) =
      .ok (preL4 y) :=
    addHoliday_nonsunday_eq _ w4 (fresh_of_lt H3 (by omega))
  have e5 : addHoliday true (preL4 y) "Holy Saturday" (easter y - 1) =
      .ok (preL5 y) := by
    refine addHoliday_nonsunday_eq _ w5 ?_
    unfold preL4
    exact fresh_app (fresh_of_lt H3 (by omega)) (fresh_singleton (by omega))
  have e6 : addHoliday true (preL5 y) "Easter Monday" (easter y + 1) =
      .ok (preL6 y) := by
    refine addHoliday_nonsunday_eq _ w0 ?_
    unfold preL5 preL4
    exact fresh_app
      (fresh_app (fresh_of_lt H3 (by omega)) (fresh_singleton (by omega)))
      (fresh_singleton (by omega))
  have H4 : ∀ p ∈ preL4 y, p.1 < daysBeforeYear y + 119 := by
    unfold preL4
    exact lt_app H3 (by omega) (lt_singleton (by omega))
  have H5 : ∀ p ∈ preL5 y, p.1 < daysBeforeYear y + 119 := by
    unfold preL5
    exact lt_app H4 (by omega) (lt_singleton (by omega))
  have H6 : ∀ p ∈ preL6 y, p.1 < daysBeforeYear y + 119 := by
    unfold preL6
    exact lt_app H5 (by omega) (lt_singleton (by omega))
  have e7 : addHoliday true (preL6 y) "Labour Day" (toOrdinal y 5 1) =
      .ok (preL7 y) :=
    addHoliday_true_eq _ (fresh_of_lt H6 (by omega))
      (fresh_of_lt H6 (by omega))
  have H7 : ∀ p ∈ preL7 y, p.1 < daysBeforeYear y + 124 := by
    unfold preL7
    exact lt_app H6 (by omega) (lt_singleton (by omega))
  have e8 : (if y ≤ 2021 then
        addMovableHoliday true (preL7 y) "Commonwealth Day"
          (toOrdinal y 5 24)
      else .ok (preL7 y)) = .ok (preL8 y) :=
    ite_step fun _ =>
      addMovableHoliday_true_eq _ (fresh_of_lt H7 (by omega))
  have H8 : ∀ p ∈ preL8 y, p.1 < daysBeforeYear y + 149 := by
    unfold preL8
    exact lt_app H7 (by omega) (lt_ite_singleton (by omega))
  have e9 : (if 2021 ≤ y then
        addMovableHoliday true (preL8 y) "Emancipation Day"
          (toOrdinal y 8 1)
      else .ok (preL8 y)) = .ok (preL9 y) :=
    ite_step fun _ =>
      addMovableHoliday_true_eq _ (fresh_of_lt H8 (by omega))
  have H9 : ∀ p ∈ preL9 y, p.1 < daysBeforeYear y + 218 := by
    unfold preL9
    exact lt_app H8 (by omega) (lt_ite_singleton (by omega))
  have e10 : addHoliday true (preL9 y) "Saint George's Caye Day"
      (toOrdinal y 9 10) = .ok (preL10 y) :=
    addHoliday_true_eq _ (fresh_of_lt H9 (by omega))
      (fresh_of_lt H9 (by omega))
  have H10 : ∀ p ∈ preL10 y, p.1 < daysBeforeYear y + 256 := by
    unfold preL10
    exact lt_app H9 (by omega) (lt_singleton (by omega))
  have e11 : addHoliday true (preL10 y) "Independence Day"
      (toOrdinal y 9 21) = .ok (preL11 y) :=
    addHoliday_true_eq _ (fresh_of_lt H10 (by omega))
      (fresh_of_lt H10 (by omega))
  have H11 : ∀ p ∈ preL11 y, p.1 < daysBeforeYear y + 267 := by
    unfold preL11
    exact lt_app H10 (by omega) (lt_singleton (by omega))
  have e12 : addMovableHoliday true (preL11 y)
      (if 2021 ≤ y then "Indigenous Peoples' Resistance Day"
        else "Pan American Day") (toOrdinal y 10 12) = .ok (preL12 y) :=
    addMovableHoliday_true_eq _ (fresh_of_lt H11 (by omega))
  have H12 : ∀ p ∈ preL12 y, p.1 < daysBeforeYear y + 290 := by
    unfold preL12
    exact lt_app H11 (by omega) (lt_singleton (by omega))
  have e13 : addHoliday true (preL12 y) "Garifuna Settlement Day"
      (toOrdinal y 11 19) = .ok (preList y) :=
    addHoliday_true_eq _ (fresh_of_lt H12 (by omega))
      (fresh_of_lt H12 (by omega))
  have H13 : ∀ p ∈ preList y, p.1 < daysBeforeYear y + 326 := by
    unfold preList
    exact lt_app H12 (by omega) (lt_singleton (by omega))
  refine ⟨?_, H13⟩
  unfold populatePre
  simp only [e1, okBind, e2, e3, e4, e5, e6, e7, e8, e9, e10, e11, e12, e13]

/-- With observed mode on, for any year `≥ 1982` the full Belize pass
succeeds and commits exactly the entries of `observedList`: the `preList`
entries, then Boxing Day adjusted from its fixed nominal December 26, then
Christmas Day, which always lands on December 25 under its plain name. -/
theorem populate_true_eq (y : Nat) (hy : 1982 ≤ y) :
    populate true y = .ok (observedList y) := by
  obtain ⟨hpre, hbound⟩ := populatePre_true_spec y hy
  have hL := leapDays_le y
  have o25 := ord_12_25 y
  have fB := simpleEntry_fst "Boxing Day" (toOrdinal y 12 25 + 1)
  have eB : addHoliday true (preList y) "Boxing Day"
      (toOrdinal y 12 25 + 1) =
      .ok (preList y ++
        [simpleEntry "Boxing Day" (toOrdinal y 12 25 + 1)]) :=
    addHoliday_true_eq _ (fresh_of_lt hbound (by omega))
      (fresh_of_lt hbound (by omega))
  have fC : ∀ p ∈ preList y ++
      [simpleEntry "Boxing Day" (toOrdinal y 12 25 + 1)],
      p.1 ≠ toOrdinal y 12 25 :=
    fresh_app (fresh_of_lt hbound (by omega)) (fresh_singleton (by omega))
  have eC : addHoliday true
      (preList y ++ [simpleEntry "Boxing Day" (toOrdinal y 12 25 + 1)])
      "Christmas Day" (toOrdinal y 12 25) =
      .ok ((preList y ++
          [simpleEntry "Boxing Day" (toOrdinal y 12 25 + 1)]) ++
        [(toOrdinal y 12 25, "Christmas Day")]) := by
    by_cases h6 : weekday (toOrdinal y 12 25) = 6
    · have hbx : simpleEntry "Boxing Day" (toOrdinal y 12 25 + 1) =
          (toOrdinal y 12 25 + 1, "Boxing Day") :=
        simpleEntry_of_nonsunday _ (by unfold weekday at h6 ⊢; omega)
      refine addHoliday_suppressed_eq _ (by simp [isSunday, h6]) ?_ fC
      exact contains_eq_true_of_mem
        (List.mem_append_right _ (List.mem_singleton_self
          (simpleEntry "Boxing Day" (toOrdinal y 12 25 + 1))))
        (by rw [hbx])
    · exact addHoliday_nonsunday_eq _ h6 fC
  unfold populate
  rw [if_neg (by omega)]
  simp only [hpre, okBind, eB, eC]
  simp [observedList, List.append_assoc]

/-! ## Closed forms of the extended adjuster -/

theorem adjustExtended_eq (name : String) (dt : Nat) :
    adjustExtended true name dt =
      if weekday dt = 4 ∨ weekday dt = 6 then
        (name ++ " (Observed)", nthWeekdayFrom 1 MON dt)
      else if weekday dt = 1 ∨ weekday dt = 2 ∨ weekday dt = 3 then
        (name ++ " (Observed)", nthWeekdayFrom (-1) MON dt)
      else (name, dt) := by
  have h7 := weekday_lt dt
  unfold adjustExtended isFriday isSunday isTuesday isWednesday isThursday
  by_cases h46 : weekday dt = 4 ∨ weekday dt = 6
  · rw [if_pos h46]
    rcases h46 with h | h <;> simp [h]
  · rw [if_neg h46]
    by_cases h123 : weekday dt = 1 ∨ weekday dt = 2 ∨ weekday dt = 3
    · rw [if_pos h123]
      rcases h123 with h | h | h <;> simp [h]
    · rw [if_neg h123]
      have e1 : (weekday dt == 4 || weekday dt == 6) = false := by
        simp only [Bool.or_eq_false_iff, beq_eq_false_iff_ne]
        omega
      have e2 : (weekday dt == 1 || weekday dt == 2 || weekday dt == 3) =
          false := by
        simp only [Bool.or_eq_false_iff, beq_eq_false_iff_ne]
        omega
      simp [e1, e2]

theorem nth_next_monday {dt : Nat} (h : weekday dt = 4 ∨ weekday dt = 6) :
    weekday (nthWeekdayFrom 1 MON dt) = MON ∧
    dt < nthWeekdayFrom 1 MON dt ∧ nthWeekdayFrom 1 MON dt ≤ dt + 7 := by
  unfold nthWeekdayFrom MON
  rw [if_pos (by norm_num)]
  unfold weekday at *
  rcases h with h | h <;> rw [h] <;> norm_num <;> omega

theorem nth_prev_monday {dt : Nat}
    (h : weekday dt = 1 ∨ weekday dt = 2 ∨ weekday dt = 3) :
    weekday (nthWeekdayFrom (-1) MON dt) = MON ∧
    nthWeekdayFrom (-1) MON dt < dt ∧
    dt ≤ nthWeekdayFrom (-1) MON dt + 7 := by
  unfold nthWeekdayFrom MON
  rw [if_neg (by norm_num)]
  unfold weekday at *
  rcases h with h | h | h <;> rw [h] <;> norm_num <;> omega

/-! ## Claim theorems -/

/-- C1.  Extended weekday-shift policy: with observed mode on, a nominal
Friday or Sunday is committed on the next Monday renamed " (Observed)";
a nominal Tuesday, Wednesday or Thursday is committed on the preceding
Monday renamed; a nominal Monday or Saturday is committed unchanged; with
observed mode off every nominal (name, date) is committed unchanged.
Holds for every nominal date. -/
theorem extended_policy (s : HolidaySet) (name : String) (dt : Nat) :
    addMovableHoliday false s name dt = commit s name dt ∧
    ((isFriday dt = true ∨ isSunday dt = true) →
      ∃ d, d = nthWeekdayFrom 1 MON dt ∧ weekday d = MON ∧ dt < d ∧
        d ≤ dt + 7 ∧
        addMovableHoliday true s name dt =
          commit s (name ++ " (Observed)") d) ∧
    ((isTuesday dt = true ∨ isWednesday dt = true ∨ isThursday dt = true) →
      ∃ d, d = nthWeekdayFrom (-1) MON dt ∧ weekday d = MON ∧ d < dt ∧
        dt ≤ d + 7 ∧
        addMovableHoliday true s name dt =
          commit s (name ++ " (Observed)") d) ∧
    ((isMonday dt = true ∨ isSaturday dt = true) →
      addMovableHoliday true s name dt = commit s name dt) := by
  refine ⟨addMovableHoliday_false_commit s name dt, ?_, ?_, ?_⟩
  · intro h
    have hw : weekday dt = 4 ∨ weekday dt = 6 := by
      rcases h with h | h <;> [left; right] <;> simpa [isFriday, isSunday]
        using h
    obtain ⟨m1, m2, m3⟩ := nth_next_monday hw
    refine ⟨_, rfl, m1, m2, m3, ?_⟩
    show addHoliday true s (adjustExtended true name dt).1
      (adjustExtended true name dt).2 = _
    rw [adjustExtended_eq, if_pos hw]
    exact addHoliday_nonsunday_commit _ _ _
      (isSunday_eq_false (by rw [m1]; unfold MON; omega))
  · intro h
    have hw : weekday dt = 1 ∨ weekday dt = 2 ∨ weekday dt = 3 := by
      rcases h with h | h | h
      · exact Or.inl (by simpa [isTuesday] using h)
      · exact Or.inr (Or.inl (by simpa [isWednesday] using h))
      · exact Or.inr (Or.inr (by simpa [isThursday] using h))
    obtain ⟨m1, m2, m3⟩ := nth_prev_monday hw
    refine ⟨_, rfl, m1, m2, m3, ?_⟩
    show addHoliday true s (adjustExtended true name dt).1
      (adjustExtended true name dt).2 = _
    rw [adjustExtended_eq, if_neg (by omega), if_pos hw]
    exact addHoliday_nonsunday_commit _ _ _
      (isSunday_eq_false (by rw [m1]; unfold MON; omega))
  · intro h
    have hw : weekday dt = 0 ∨ weekday dt = 5 := by
      rcases h with h | h <;> [left; right] <;> simpa [isMonday, isSaturday]
        using h
    show addHoliday true s (adjustExtended true name dt).1
      (adjustExtended true name dt).2 = _
    rw [adjustExtended_eq, if_neg (by omega), if_neg (by omega)]
    refine addHoliday_nonsunday_commit _ _ _ (isSunday_eq_false ?_)
    show weekday dt ≠ 6
    rcases hw with h | h <;> omega

/-- Witness for C1 at concrete dates: ordinal 5 is a Friday (shifted to
Monday 8), ordinal 2 is a Tuesday (shifted to Monday 1), ordinal 6 is a
Saturday (unchanged). -/
theorem extended_policy_witness :
    (∃ d, d = nthWeekdayFrom 1 MON 5 ∧ weekday d = MON ∧ 5 < d ∧
      d ≤ 5 + 7 ∧
      addMovableHoliday true [] "H" 5 =
        commit [] ("H" ++ " (Observed)") d) ∧
    (∃ d, d = nthWeekdayFrom (-1) MON 2 ∧ weekday d = MON ∧ d < 2 ∧
      2 ≤ d + 7 ∧
      addMovableHoliday true [] "H" 2 =
        commit [] ("H" ++ " (Observed)") d) ∧
    addMovableHoliday true [] "H" 6 = commit [] "H" 6 :=
  ⟨(extended_policy [] "H" 5).2.1 (Or.inl (by decide)),
   (extended_policy [] "H" 2).2.2.1 (Or.inl (by decide)),
   (extended_policy [] "H" 6).2.2.2 (Or.inr (by decide))⟩

/-- C2.  Simple Sunday-shift policy: with observed mode on, a nominal
Sunday moves to the next day (a Monday) renamed " (Observed)" unless that
next day is already present in the set, in which case the nominal pair is
committed unchanged; any non-Sunday nominal date, or observed mode off,
commits the nominal pair unchanged. -/
theorem simple_policy (s : HolidaySet) (name : String) (dt : Nat) :
    (isSunday dt = false →
      ∀ observed, addHoliday observed s name dt = commit s name dt) ∧
    addHoliday false s name dt = commit s name dt ∧
    (isSunday dt = true → contains s (dt + 1) = false →
      weekday (dt + 1) = MON ∧
      addHoliday true s name dt =
        commit s (name ++ " (Observed)") (dt + 1)) ∧
    (isSunday dt = true → contains s (dt + 1) = true →
      addHoliday true s name dt = commit s name dt) := by
  refine ⟨fun h observed => addHoliday_nonsunday_commit s name observed h,
    addHoliday_false_commit s name dt, fun h6 hc => ⟨?_, ?_⟩,
    fun h6 hc => addHoliday_sunday_suppressed_commit name h6 hc⟩
  · have hw : weekday dt = 6 := by simpa [isSunday] using h6
    unfold weekday at hw ⊢
    unfold MON
    omega
  · exact addHoliday_sunday_commit name h6 hc

/-- Witness for C2: ordinal 7 is a Sunday; with an empty set it shifts to
Monday 8, with ordinal 8 occupied it stays put; ordinal 3 (a Wednesday)
is never shifted. -/
theorem simple_policy_witness :
    (weekday (7 + 1) = MON ∧
      addHoliday true [] "Hs" 7 = commit [] ("Hs" ++ " (Observed)") (7 + 1)) ∧
    addHoliday true [(8, "X")] "Hs" 7 = commit [(8, "X")] "Hs" 7 ∧
    addHoliday true [] "Hs" 3 = commit [] "Hs" 3 :=
  ⟨(simple_policy [] "Hs" 7).2.2.1 (by decide) (by decide),
   (simple_policy [(8, "X")] "Hs" 7).2.2.2 (by decide) (by decide),
   (simple_policy [] "Hs" 3).1 (by decide) true⟩

/-- C8 (implicit).  No double adjustment: with observed mode on the
extended adjuster's output date is always a Monday or a Saturday (never a
Sunday), and in every mode `_add_movable_holiday` commits exactly the
adjusted pair — the simple Sunday-shift path inside `_add_holiday` never
fires a second shift or a second rename. -/
theorem no_double_adjustment (observed : Bool) (s : HolidaySet)
    (name : String) (dt : Nat) :
    (observed = true →
      weekday (adjustExtended true name dt).2 = 0 ∨
      weekday (adjustExtended true name dt).2 = 5) ∧
    addMovableHoliday observed s name dt =
      commit s (adjustExtended observed name dt).1
        (adjustExtended observed name dt).2 := by
  constructor
  · intro _
    exact (adjustExtended_spec name dt).1
  · cases observed with
    | false => exact addMovableHoliday_false_commit s name dt
    | true =>
      show addHoliday true s (adjustExtended true name dt).1
        (adjustExtended true name dt).2 = _
      refine addHoliday_nonsunday_commit _ _ _ (isSunday_eq_false ?_)
      rcases (adjustExtended_spec name dt).1 with h | h <;> omega

/-- Witness for C8: ordinal 9 is a Tuesday, adjusted to Monday 8; the
commit path applies no second shift. -/
theorem no_double_adjustment_witness :
    (weekday (adjustExtended true "Hm" 9).2 = 0 ∨
      weekday (adjustExtended true "Hm" 9).2 = 5) ∧
    addMovableHoliday true [] "Hm" 9 =
      commit [] (adjustExtended true "Hm" 9).1
        (adjustExtended true "Hm" 9).2 :=
  ⟨(no_double_adjustment true [] "Hm" 9).1 rfl,
   (no_double_adjustment true [] "Hm" 9).2⟩

theorem countP_date_eq_zero {s : HolidaySet} {d : Nat}
    (h : ∀ p ∈ s, p.1 ≠ d) : s.countP (fun p => p.1 == d) = 0 := by
  rw [List.countP_eq_zero]
  intro p hp
  simpa using h p hp

/-- C3.  Boxing-Day/Christmas ordering: in every year `≥ 1982` whose
December 25 is a Sunday, the observed-mode population succeeds, Boxing Day
occupies December 26, and Christmas Day's shift is suppressed, so exactly
one entry sits on December 26. -/
theorem boxing_unique_dec26 (y : Nat) (hy : 1982 ≤ y)
    (hwd : weekday (toOrdinal y 12 25) = 6) :
    ∃ s, populate true y = .ok s ∧
      (toOrdinal y 12 26, "Boxing Day") ∈ s ∧
      s.countP (fun p => p.1 == toOrdinal y 12 26) = 1 := by
  obtain ⟨-, hbound⟩ := populatePre_true_spec y hy
  have hL := leapDays_le y
  have o25 := ord_12_25 y
  have o26 := ord_12_26 y
  have ho : toOrdinal y 12 26 = toOrdinal y 12 25 + 1 := by omega
  have hbx : simpleEntry "Boxing Day" (toOrdinal y 12 25 + 1) =
      (toOrdinal y 12 25 + 1, "Boxing Day") :=
    simpleEntry_of_nonsunday _ (by unfold weekday at hwd ⊢; omega)
  refine ⟨observedList y, populate_true_eq y hy, ?_, ?_⟩
  · rw [ho]
    unfold observedList
    rw [hbx]
    exact List.mem_append_right _ (by simp)
  · unfold observedList
    rw [List.countP_append,
      countP_date_eq_zero (fresh_of_lt hbound (by omega)), hbx]
    have h1 : ((toOrdinal y 12 25 + 1 : Nat) == toOrdinal y 12 26) =
        true := beq_iff_eq.2 (by omega)
    have h2 : ((toOrdinal y 12 25 : Nat) == toOrdinal y 12 26) = false :=
      beq_eq_false_iff_ne.2 (by omega)
    simp [List.countP_cons, h1, h2]

/-- Witness for C3 at 2022, whose December 25 is a Sunday. -/
theorem boxing_unique_dec26_witness :
    (1982 ≤ 2022 ∧ weekday (toOrdinal 2022 12 25) = 6) ∧
    ∃ s, populate true 2022 = .ok s ∧
      (toOrdinal 2022 12 26, "Boxing Day") ∈ s ∧
      s.countP (fun p => p.1 == toOrdinal 2022 12 26) = 1 :=
  ⟨⟨by decide, by decide⟩, boxing_unique_dec26 2022 (by decide) (by decide)⟩

/-- C9 (implicit).  A suppressed Sunday shift still commits the nominal
entry under its un-suffixed name; in particular, in every year `≥ 1982`
whose December 25 is a Sunday, "Christmas Day" sits on December 25 (and is
the only entry there). -/
theorem christmas_suppressed_commit (y : Nat) (hy : 1982 ≤ y)
    (hwd : weekday (toOrdinal y 12 25) = 6) :
    (∀ (s : HolidaySet) (name : String) (dt : Nat), isSunday dt = true →
      contains s (dt + 1) = true →
      addHoliday true s name dt = commit s name dt) ∧
    ∃ s, populate true y = .ok s ∧
      (toOrdinal y 12 25, "Christmas Day") ∈ s ∧
      s.countP (fun p => p.1 == toOrdinal y 12 25) = 1 := by
  obtain ⟨-, hbound⟩ := populatePre_true_spec y hy
  have hL := leapDays_le y
  have o25 := ord_12_25 y
  refine ⟨fun s name dt h6 hc =>
    addHoliday_sunday_suppressed_commit name h6 hc,
    observedList y, populate_true_eq y hy, ?_, ?_⟩
  · unfold observedList
    exact List.mem_append_right _ (by simp)
  · unfold observedList
    rw [List.countP_append,
      countP_date_eq_zero (fresh_of_lt hbound (by omega))]
    have fb := simpleEntry_fst "Boxing Day" (toOrdinal y 12 25 + 1)
    have h1 : ((simpleEntry "Boxing Day" (toOrdinal y 12 25 + 1)).1 ==
        toOrdinal y 12 25) = false := beq_eq_false_iff_ne.2 (by omega)
    simp [List.countP_cons, h1]

/-- Witness for C9 at 2016, whose December 25 is a Sunday, plus a direct
concrete suppression. -/
theorem christmas_suppressed_commit_witness :
    (1982 ≤ 2016 ∧ weekday (toOrdinal 2016 12 25) = 6) ∧
    (addHoliday true [(8, "X")] "Hx" 7 = commit [(8, "X")] "Hx" 7) ∧
    ∃ s, populate true 2016 = .ok s ∧
      (toOrdinal 2016 12 25, "Christmas Day") ∈ s ∧
      s.countP (fun p => p.1 == toOrdinal 2016 12 25) = 1 :=
  ⟨⟨by decide, by decide⟩,
   (christmas_suppressed_commit 2016 (by decide) (by decide)).1
     [(8, "X")] "Hx" 7 (by decide) (by decide),
   (christmas_suppressed_commit 2016 (by decide) (by decide)).2⟩

/-- C4.  No-collision guarantee: for every year from 1982 through 2030 the
full observed-mode population succeeds (no `DuplicateDate`) and all
committed dates are pairwise distinct. -/
theorem no_duplicate_dates (y : Nat) (h1 : 1982 ≤ y) (h2 : y ≤ 2030) :
    ∃ s, populate true y = .ok s ∧ keysOk s :=
  ⟨observedList y, populate_true_eq y h1,
    populate_keysOk (populate_true_eq y h1)⟩

/-- Witness for C4 at 1982. -/
theorem no_duplicate_dates_witness :
    (1982 : Nat) ≤ 1982 ∧ (1982 : Nat) ≤ 2030 ∧
    ∃ s, populate true 1982 = .ok s ∧ keysOk s :=
  ⟨by decide, by decide, no_duplicate_dates 1982 (by decide) (by decide)⟩

/-- Counterexample to C5 as stated: in 2021 (December 26 falls on a
Sunday) the effective Christmas date is December 25 but Boxing Day is
committed on December 27 — no entry sits on effective-Christmas
plus one; in 2023 Boxing Day sits on December 26, not on
effective-Christmas plus two.  So the committed Boxing Day entry does not
track the effective Christmas date plus any fixed statutory offset; it is
the fixed nominal December 26 run through the simple Sunday adjuster. -/
theorem boxing_effective_cex :
    (populate true 2021).isOk = true ∧
    (toOrdinal 2021 12 25, "Christmas Day") ∈ holidaysOf true 2021 ∧
    (∀ p ∈ holidaysOf true 2021, p.1 ≠ toOrdinal 2021 12 25 + 1) ∧
    (toOrdinal 2021 12 27, "Boxing Day (Observed)") ∈
      holidaysOf true 2021 ∧
    (populate true 2023).isOk = true ∧
    (toOrdinal 2023 12 25, "Christmas Day") ∈ holidaysOf true 2023 ∧
    (toOrdinal 2023 12 26, "Boxing Day") ∈ holidaysOf true 2023 ∧
    (∀ p ∈ holidaysOf true 2023, p.1 ≠ toOrdinal 2023 12 25 + 2) := by
  decide

/-- C5 amended: Boxing Day's nominal date is the fixed December 26
(Christmas Day's nominal date plus one day); it is committed before
Christmas Day and adjusted by the simple Sunday-shift policy
independently of Christmas Day's effective date (committed on December 26,
or on December 27 renamed when December 26 is a Sunday), while Christmas
Day always ends up on December 25. -/
theorem boxing_from_nominal (y : Nat) (hy : 1982 ≤ y) :
    ∃ pre, populate true y = .ok (pre ++
        [simpleEntry "Boxing Day" (toOrdinal y 12 25 + 1),
         (toOrdinal y 12 25, "Christmas Day")]) ∧
      (∀ p ∈ pre, p.1 < toOrdinal y 12 25) ∧
      ((weekday (toOrdinal y 12 25 + 1) ≠ 6 ∧
          simpleEntry "Boxing Day" (toOrdinal y 12 25 + 1) =
            (toOrdinal y 12 25 + 1, "Boxing Day")) ∨
       (weekday (toOrdinal y 12 25 + 1) = 6 ∧
          simpleEntry "Boxing Day" (toOrdinal y 12 25 + 1) =
            (toOrdinal y 12 25 + 2, "Boxing Day (Observed)"))) := by
  obtain ⟨-, hbound⟩ := populatePre_true_spec y hy
  have hL := leapDays_le y
  have o25 := ord_12_25 y
  refine ⟨preList y, populate_true_eq y hy, ?_, ?_⟩
  · intro p hp
    have := hbound p hp
    omega
  · by_cases hw : weekday (toOrdinal y 12 25 + 1) = 6
    · right
      refine ⟨hw, ?_⟩
      rw [simpleEntry_of_sunday _ hw]
      rfl
    · left
      exact ⟨hw, simpleEntry_of_nonsunday _ hw⟩

/-- Witness for the amended C5 at 2021. -/
theorem boxing_from_nominal_witness :
    (1982 : Nat) ≤ 2021 ∧
    ∃ pre, populate true 2021 = .ok (pre ++
        [simpleEntry "Boxing Day" (toOrdinal 2021 12 25 + 1),
         (toOrdinal 2021 12 25, "Christmas Day")]) ∧
      (∀ p ∈ pre, p.1 < toOrdinal 2021 12 25) ∧
      ((weekday (toOrdinal 2021 12 25 + 1) ≠ 6 ∧
          simpleEntry "Boxing Day" (toOrdinal 2021 12 25 + 1) =
            (toOrdinal 2021 12 25 + 1, "Boxing Day")) ∨
       (weekday (toOrdinal 2021 12 25 + 1) = 6 ∧
          simpleEntry "Boxing Day" (toOrdinal 2021 12 25 + 1) =
            (toOrdinal 2021 12 25 + 2, "Boxing Day (Observed)"))) :=
  ⟨by decide, boxing_from_nominal 2021 (by decide)⟩

/-- C6.  Year-eligibility boundary: any year up to 1981 yields the empty
set; 1982 yields a non-empty set containing New Year's Day (January 1)
and Good Friday (April 9, 1982), in either observed mode. -/
theorem year_eligibility :
    (∀ (y : Nat) (observed : Bool), y ≤ 1981 →
      populate observed y = .ok []) ∧
    (∀ observed : Bool,
      populate observed 1982 = .ok (holidaysOf observed 1982) ∧
      holidaysOf observed 1982 ≠ [] ∧
      (toOrdinal 1982 1 1, "New Year's Day") ∈ holidaysOf observed 1982 ∧
      (toOrdinal 1982 4 9, "Good Friday") ∈ holidaysOf observed 1982) := by
  constructor
  · intro y observed hy
    unfold populate
    rw [if_pos hy]
  · intro observed
    cases observed <;> exact ⟨rfl, by decide, by decide, by decide⟩

/-- Witness for C6 at years 1981 and 1900. -/
theorem year_eligibility_witness :
    (1981 : Nat) ≤ 1981 ∧ populate true 1981 = .ok [] ∧
    (1900 : Nat) ≤ 1981 ∧ populate false 1900 = .ok [] :=
  ⟨by decide, year_eligibility.1 1981 true (by decide), by decide,
   year_eligibility.1 1900 false (by decide)⟩

/-- Counterexample to C7 as stated: 2023 is a year `≥ 2021`, its
population (observed mode on) succeeds, yet no entry named exactly
"George Price Day" exists at all — January 15, 2023 is a Sunday, so the
entry is "George Price Day (Observed)" on January 16. -/
theorem george_price_cex :
    (2021 : Nat) ≤ 2023 ∧ (populate true 2023).isOk = true ∧
    (∀ p ∈ holidaysOf true 2023, p.2 ≠ "George Price Day") ∧
    (toOrdinal 2023 1 15, "George Price Day") ∉ holidaysOf true 2023 ∧
    (toOrdinal 2023 1 16, "George Price Day (Observed)") ∈
      holidaysOf true 2023 := by
  decide

theorem snd_ne_of {e : Nat × String} {b n : String}
    (hsnd : e.2 = b ∨ e.2 = b ++ " (Observed)") (h1 : b ≠ n)
    (h2 : b ++ " (Observed)" ≠ n) : e.2 ≠ n := by
  rcases hsnd with h | h <;> rw [h] <;> assumption

/-- C7 amended: with observed mode on, every year `≥ 2021` carries a
George Price Day entry — on January 15 under the plain name, or, when
January 15 is a Sunday (as in 2023), on January 16 named
"George Price Day (Observed)"; for 1982-2020 no George Price Day entry
of either form exists (years `≤ 1981` produce the empty set). -/
theorem george_price_window (y : Nat) :
    (2021 ≤ y →
      ∃ s, populate true y = .ok s ∧
        ((weekday (toOrdinal y 1 15) ≠ 6 ∧
            (toOrdinal y 1 15, "George Price Day") ∈ s) ∨
         (weekday (toOrdinal y 1 15) = 6 ∧
            (toOrdinal y 1 15 + 1, "George Price Day (Observed)") ∈ s))) ∧
    (1982 ≤ y → y ≤ 2020 →
      ∃ s, populate true y = .ok s ∧
        ∀ p ∈ s, p.2 ≠ "George Price Day" ∧
          p.2 ≠ "George Price Day (Observed)") := by
  constructor
  · intro h21
    refine ⟨observedList y, populate_true_eq y (by omega), ?_⟩
    have hm : simpleEntry "George Price Day" (toOrdinal y 1 15) ∈
        observedList y := by
      unfold observedList preList preL12 preL11 preL10 preL9 preL8 preL7
        preL6 preL5 preL4 preL3 preL2
      rw [if_pos h21]
      simp
    by_cases hw : weekday (toOrdinal y 1 15) = 6
    · right
      refine ⟨hw, ?_⟩
      rw [simpleEntry_of_sunday _ hw] at hm
      exact hm
    · left
      refine ⟨hw, ?_⟩
      rw [simpleEntry_of_nonsunday _ hw] at hm
      exact hm
  · intro h82 h20
    refine ⟨observedList y, populate_true_eq y h82, ?_⟩
    intro p hp
    have hn : ¬2021 ≤ y := by omega
    have hp21 : y ≤ 2021 := by omega
    unfold observedList preList preL12 preL11 preL10 preL9 preL8 preL7
      preL6 preL5 preL4 preL3 preL2 preL1 at hp
    rw [if_neg hn, if_neg hn, if_neg hn, if_pos hp21] at hp
    simp only [List.append_nil, List.nil_append, List.mem_append,
      List.mem_singleton, List.mem_cons, List.not_mem_nil, or_false] at hp
    rcases hp with ((((((((((rfl | rfl) | rfl) | rfl) | rfl) | rfl) |
      rfl) | rfl) | rfl) | rfl) | rfl) | rfl | rfl
    · exact ⟨snd_ne_of (simpleEntry_snd _ _) (by decide) (by decide),
        snd_ne_of (simpleEntry_snd _ _) (by decide) (by decide)⟩
    · exact ⟨snd_ne_of (movedEntry_snd _ _) (by decide) (by decide),
        snd_ne_of (movedEntry_snd _ _) (by decide) (by decide)⟩
    · exact ⟨show ("Good Friday" : String) ≠ "George Price Day" by decide,
        show ("Good Friday" : String) ≠ "George Price Day (Observed)"
          by decide⟩
    · exact ⟨show ("Holy Saturday" : String) ≠ "George Price Day" by decide,
        show ("Holy Saturday" : String) ≠ "George Price Day (Observed)"
          by decide⟩
    · exact ⟨show ("Easter Monday" : String) ≠ "George Price Day" by decide,
        show ("Easter Monday" : String) ≠ "George Price Day (Observed)"
          by decide⟩
    · exact ⟨snd_ne_of (simpleEntry_snd _ _) (by decide) (by decide),
        snd_ne_of (simpleEntry_snd _ _) (by decide) (by decide)⟩
    · exact ⟨snd_ne_of (movedEntry_snd _ _) (by decide) (by decide),
        snd_ne_of (movedEntry_snd _ _) (by decide) (by decide)⟩
    · exact ⟨snd_ne_of (simpleEntry_snd _ _) (by decide) (by decide),
        snd_ne_of (simpleEntry_snd _ _) (by decide) (by decide)⟩
    · exact ⟨snd_ne_of (simpleEntry_snd _ _) (by decide) (by decide),
        snd_ne_of (simpleEntry_snd _ _) (by decide) (by decide)⟩
    · exact ⟨snd_ne_of (movedEntry_snd _ _) (by decide) (by decide),
        snd_ne_of (movedEntry_snd _ _) (by decide) (by decide)⟩
    · exact ⟨snd_ne_of (simpleEntry_snd _ _) (by decide) (by decide),
        snd_ne_of (simpleEntry_snd _ _) (by decide) (by decide)⟩
    · exact ⟨snd_ne_of (simpleEntry_snd _ _) (by decide) (by decide),
        snd_ne_of (simpleEntry_snd _ _) (by decide) (by decide)⟩
    · exact ⟨show ("Christmas Day" : String) ≠ "George Price Day" by decide,
        show ("Christmas Day" : String) ≠ "George Price Day (Observed)"
          by decide⟩

/-- Witness for the amended C7 at 2021 (entry present) and 2019 (entry
absent). -/
theorem george_price_window_witness :
    (∃ s, populate true 2021 = .ok s ∧
      ((weekday (toOrdinal 2021 1 15) ≠ 6 ∧
          (toOrdinal 2021 1 15, "George Price Day") ∈ s) ∨
       (weekday (toOrdinal 2021 1 15) = 6 ∧
          (toOrdinal 2021 1 15 + 1, "George Price Day (Observed)") ∈ s))) ∧
    (∃ s, populate true 2019 = .ok s ∧
      ∀ p ∈ s, p.2 ≠ "George Price Day" ∧
        p.2 ≠ "George Price Day (Observed)") :=
  ⟨(george_price_window 2021).1 (by decide),
   (george_price_window 2019).2 (by decide) (by decide)⟩

/-- C10 (implicit).  Overlapping eligibility windows: in 2021 both a
Commonwealth Day entry and an Emancipation Day entry are present; in 2020
only Commonwealth Day of the two; in 2022 only Emancipation Day — in both
observed modes (matching entries either plainly named or with the
" (Observed)" suffix). -/
theorem eligibility_windows_2021 :
    ((holidaysOf true 2021).any (holidayNamed "Commonwealth Day") = true ∧
     (holidaysOf true 2021).any (holidayNamed "Emancipation Day") = true ∧
     (holidaysOf true 2020).any (holidayNamed "Commonwealth Day") = true ∧
     (holidaysOf true 2020).any (holidayNamed "Emancipation Day") = false ∧
     (holidaysOf true 2022).any (holidayNamed "Commonwealth Day") = false ∧
     (holidaysOf true 2022).any (holidayNamed "Emancipation Day") = true) ∧
    ((holidaysOf false 2021).any (holidayNamed "Commonwealth Day") = true ∧
     (holidaysOf false 2021).any (holidayNamed "Emancipation Day") = true ∧
     (holidaysOf false 2020).any (holidayNamed "Commonwealth Day") = true ∧
     (holidaysOf false 2020).any (holidayNamed "Emancipation Day") = false ∧
     (holidaysOf false 2022).any (holidayNamed "Commonwealth Day") = false ∧
     (holidaysOf false 2022).any (holidayNamed "Emancipation Day") = true)
    := by
  decide

end Belize
